import Mathlib

/-!
Verification development for the recommendation core of a property-listings
marketplace (file src/app.py, class RecommendationSystem).  The three scorers
are embedded as pure functions over in-memory snapshots of the listing
catalog, the stored preference record and the interaction log.

Embedding conventions:
* listing ids and user ids are integers, numeric listing attributes are
  rationals; nullable numeric columns are Option-valued and the pipeline
  applies fillna(0) exactly where the source does;
* the stored preference JSON is a record whose fields distinguish an absent
  key (outer none) from a key holding null (some none), because the source
  tests key presence with the in operator and then compares the held value;
* square roots (StandardScaler scale and L2 norms inside cosine_similarity)
  are represented by an explicit function parameter sq together with the
  predicate sqrtSpec constraining it on the finitely many arguments the
  pipeline feeds it, which keeps every definition computable over the
  rationals;
* cosine similarity between interaction-count rows is nonnegative, so the
  collaborative scorer compares squared cosines (exact rationals): the
  ordering and every tie are identical to ordering by the cosine itself;
* sort_values(ascending=False) goes through nargsort, which reverses the
  input, runs a stable ascending argsort and reverses the resulting indexer
  again: the double reversal makes it a stable descending sort, equal keys
  keeping their original input order; nlargest (keep=first) is likewise a
  stable descending sort followed by take; both are modelled by the stable
  insertion sorts below.
-/

open List

/-- A row of the imoveis table restricted to the columns the scorers read.
The catalog handed to a scorer already satisfies status = aprovado, as both
scorers query only approved listings. -/
structure Imovel where
  id : ℤ
  tipo : String
  provincia : String
  preco : ℚ
  quartos : Option ℚ
  banheiros : Option ℚ
  area : Option ℚ
deriving DecidableEq

/-- The stored preference record (JSON column preferencias).  An outer none
means the key is absent from the JSON object; some none means the key is
present and holds null, which is what the preferences form stores when the
user picks the option qualquer. -/
structure UserPrefs where
  tipo : Option (Option String)
  provincia : Option (Option String)
  preco_max : Option ℚ
  quartos_min : Option ℚ
deriving DecidableEq

/-- A row of the interacoes table.  The kind column (tipo) is non-null and
only its count matters to the scorers, so it is omitted. -/
structure Interacao where
  usuario_id : ℤ
  imovel_id : ℤ
deriving DecidableEq

/-- Stable insertion into an ascending run: the new element goes before the
first entry whose key is not smaller, matching a stable ascending sort. -/
def insAsc {α : Type} {κ : Type} [LinearOrder κ] (key : α → κ) (x : α) : List α → List α
  | [] => [x]
  | y :: ys => if key y < key x then y :: insAsc key x ys else x :: y :: ys

/-- Stable ascending insertion sort (the numpy argsort behaviour in its
insertion-sort region). -/
def sortAscBy {α : Type} {κ : Type} [LinearOrder κ] (key : α → κ) : List α → List α
  | [] => []
  | x :: xs => insAsc key x (sortAscBy key xs)

/-- Stable insertion into a descending run: the new element goes before the
first entry whose key is strictly smaller. -/
def insDesc {α : Type} {κ : Type} [LinearOrder κ] (key : α → κ) (x : α) : List α → List α
  | [] => [x]
  | y :: ys => if key x < key y then y :: insDesc key x ys else x :: y :: ys

/-- Stable descending sort, the ordering used by nlargest with keep=first:
equal keys stay in input order. -/
def sortDescBy {α : Type} {κ : Type} [LinearOrder κ] (key : α → κ) : List α → List α
  | [] => []
  | x :: xs => insDesc key x (sortDescBy key xs)

/-- pandas sort_values(ascending=False): nargsort reverses the input, runs
a stable ascending argsort and reverses the indexer back, which is exactly
a stable descending sort - equal keys keep their original input order. -/
def pandasSortDescBy {α : Type} {κ : Type} [LinearOrder κ] (key : α → κ) (l : List α) : List α :=
  sortDescBy key l

/-- First-occurrence deduplication with an explicit seen accumulator (the
key order produced by the pandas hash table in value_counts). -/
def firstDedupAux (seen : List ℤ) : List ℤ → List ℤ
  | [] => []
  | x :: xs => if x ∈ seen then firstDedupAux seen xs else x :: firstDedupAux (x :: seen) xs

/-- First-occurrence deduplication of a list of ids. -/
def firstDedup (l : List ℤ) : List ℤ := firstDedupAux [] l

/-- The sorted distinct ids of a column, as produced for a pivot_table
index or columns (pandas sorts the labels ascending). -/
def distinctSorted (l : List ℤ) : List ℤ := sortAscBy (fun x => x) (firstDedup l)

/-- pandas head and iloc-slicing semantics for a possibly negative count:
head n with negative n drops the last -n rows. -/
def takeInt {α : Type} (n : ℤ) (l : List α) : List α :=
  if 0 ≤ n then l.take n.toNat else l.take (l.length - (-n).toNat)

/-- The fixed feature column order of the content scorer:
preco, quartos, banheiros, area, with fillna(0) on nullable columns. -/
def featOf (l : Imovel) : Fin 4 → ℚ
  | 0 => l.preco
  | 1 => l.quartos.getD 0
  | 2 => l.banheiros.getD 0
  | 3 => l.area.getD 0

/-- Per-feature mean fitted on the catalog (StandardScaler fit). -/
def fitMean (cat : List Imovel) (j : Fin 4) : ℚ :=
  (cat.map (fun l => featOf l j)).sum / (cat.length : ℚ)

/-- Per-feature population variance (ddof = 0) fitted on the catalog. -/
def fitVar (cat : List Imovel) (j : Fin 4) : ℚ :=
  (cat.map (fun l => (featOf l j - fitMean cat j) * (featOf l j - fitMean cat j))).sum
    / (cat.length : ℚ)

/-- The scale used by StandardScaler: the square root of the variance,
except that a zero variance is replaced by scale 1 so a constant feature
maps to exactly 0 instead of dividing by zero. -/
def scaleOf (sq : ℚ → ℚ) (cat : List Imovel) (j : Fin 4) : ℚ :=
  if fitVar cat j = 0 then 1 else sq (fitVar cat j)

/-- StandardScaler transform with the statistics fitted on the catalog. -/
def transform (sq : ℚ → ℚ) (cat : List Imovel) (v : Fin 4 → ℚ) : Fin 4 → ℚ :=
  fun j => (v j - fitMean cat j) / scaleOf sq cat j

/-- Sum of squares of a feature vector (the squared L2 norm). -/
def sumSq (v : Fin 4 → ℚ) : ℚ := (List.ofFn (fun j : Fin 4 => v j * v j)).sum

/-- Dot product of two feature vectors. -/
def dotF (u v : Fin 4 → ℚ) : ℚ := (List.ofFn (fun j : Fin 4 => u j * v j)).sum

/-- sklearn cosine_similarity semantics: rows are L2-normalized, a row of
zero norm is left as the zero vector, so its similarity with anything is 0. -/
def cosSim (sq : ℚ → ℚ) (u v : Fin 4 → ℚ) : ℚ :=
  if sumSq u = 0 ∨ sumSq v = 0 then 0 else dotF u v / (sq (sumSq u) * sq (sumSq v))

/-- The hard-coded fallback preferences used when the stored record is
absent or empty: tipo casa, provincia Luanda, preco_max 50000000. -/
def defaultPrefs : UserPrefs :=
  { tipo := some (some "casa"), provincia := some (some "Luanda"),
    preco_max := some 50000000, quartos_min := none }

/-- Preference resolution: the stored record is used as-is when present and
non-empty, otherwise the whole default record is substituted. -/
def resolvePrefs : Option UserPrefs → UserPrefs
  | some p => p
  | none => defaultPrefs

/-- The raw preference vector: price slot from preco_max when that key is
present (else 0), bedroom slot from quartos_min when present (else 0), and
the bathroom and area slots always 0. -/
def rawUserVec (p : UserPrefs) : Fin 4 → ℚ
  | 0 => p.preco_max.getD 0
  | 1 => p.quartos_min.getD 0
  | 2 => 0
  | 3 => 0

/-- Comparison of a listing attribute against a present preference key:
a held string must match exactly; a held null matches no listing, because
the pandas elementwise comparison of a string column with None is False
everywhere. -/
def prefMatch : Option String → String → Bool
  | some t, s => s == t
  | none, _ => false

/-- The tipo hard filter: applied whenever the key tipo is present in the
resolved preferences, regardless of the value it holds. -/
def tipoFilter (p : UserPrefs) (rows : List (Imovel × ℚ)) : List (Imovel × ℚ) :=
  match p.tipo with
  | none => rows
  | some pv => rows.filter (fun x => prefMatch pv x.1.tipo)

/-- The provincia hard filter, applied after the tipo filter. -/
def provFilter (p : UserPrefs) (rows : List (Imovel × ℚ)) : List (Imovel × ℚ) :=
  match p.provincia with
  | none => rows
  | some pv => rows.filter (fun x => prefMatch pv x.1.provincia)

/-- Both hard filters in source order. -/
def applyFilters (p : UserPrefs) (rows : List (Imovel × ℚ)) : List (Imovel × ℚ) :=
  provFilter p (tipoFilter p rows)

/-- DataFrame.nlargest(n, similaridade) with keep=first: empty for n at most
0, otherwise the first n rows of the stable descending sort by score. -/
def nlargestBySim (n : ℤ) (rows : List (Imovel × ℚ)) : List Imovel :=
  if n ≤ 0 then [] else ((sortDescBy (fun x => x.2) rows).take n.toNat).map (fun x => x.1)

/-- The standardized user-preference vector of the content scorer: the raw
vector pushed through the transform fitted on the catalog. -/
def contentUserVec (sq : ℚ → ℚ) (pr : Option UserPrefs) (cat : List Imovel) : Fin 4 → ℚ :=
  transform sq cat (rawUserVec (resolvePrefs pr))

/-- Every catalog listing paired with its cosine similarity to the
standardized user vector (the similaridade column). -/
def contentScoredRows (sq : ℚ → ℚ) (pr : Option UserPrefs) (cat : List Imovel) :
    List (Imovel × ℚ) :=
  cat.map (fun l => (l, cosSim sq (contentUserVec sq pr cat) (transform sq cat (featOf l))))

/-- get_content_based_recommendations: empty catalog short-circuits, then
score, filter by preferences and take the n largest by similarity. -/
def contentRecs (sq : ℚ → ℚ) (pr : Option UserPrefs) (cat : List Imovel) (n : ℤ) :
    List Imovel :=
  if cat = [] then []
  else nlargestBySim n (applyFilters (resolvePrefs pr) (contentScoredRows sq pr cat))

/-- All values the content pipeline takes square roots of: the four fitted
variances, the squared norm of the standardized user vector, and the squared
norm of each standardized listing row. -/
def contentSqrtArgs (sq : ℚ → ℚ) (pr : Option UserPrefs) (cat : List Imovel) : List ℚ :=
  (List.ofFn (fun j : Fin 4 => fitVar cat j))
    ++ sumSq (contentUserVec sq pr cat)
      :: cat.map (fun l => sumSq (transform sq cat (featOf l)))

/-- sq is a genuine square-root function on every listed argument. -/
def sqrtSpec (sq : ℚ → ℚ) (qs : List ℚ) : Prop :=
  ∀ q ∈ qs, 0 ≤ sq q ∧ sq q * sq q = q

instance (sq : ℚ → ℚ) (qs : List ℚ) : Decidable (sqrtSpec sq qs) := by
  unfold sqrtSpec
  infer_instance

/-- One row of the pivot_table count matrix: for each distinct listing id of
the log (sorted, the pivot column labels), the number of interaction rows of
this user for that listing, of any kind. -/
def rowOf (log : List Interacao) (u : ℤ) : List ℚ :=
  (distinctSorted (log.map (fun r => r.imovel_id))).map
    (fun l => ((log.countP (fun r => decide (r.usuario_id = u ∧ r.imovel_id = l))) : ℚ))

/-- Dot product of two count rows. -/
def dotL (v w : List ℚ) : ℚ := (List.zipWith (fun a b => a * b) v w).sum

/-- The squared cosine similarity between the count rows of two users.
Count rows are componentwise nonnegative, so the cosine itself is
nonnegative and ordering (and equality) of cosines coincides with ordering
of their squares; the square is an exact rational. -/
def simSq (log : List Interacao) (u v : ℤ) : ℚ :=
  (dotL (rowOf log u) (rowOf log v)) * (dotL (rowOf log u) (rowOf log v))
    / (dotL (rowOf log u) (rowOf log u) * dotL (rowOf log v) (rowOf log v))

/-- The similarity column of the target user, sorted descending the way
sort_values(ascending=False) does: stable ascending argsort, reversed.  The
input order is the pivot index, i.e. distinct user ids sorted ascending. -/
def collabSortedUsers (log : List Interacao) (uid : ℤ) : List ℤ :=
  pandasSortDescBy (fun u => simSq log uid u)
    (distinctSorted (log.map (fun r => r.usuario_id)))

/-- The neighbor selection of get_collaborative_recommendations: the slice
[1:11] of the sorted similarity column, i.e. drop the first entry and keep
the next ten. -/
def collabNeighbors (log : List Interacao) (uid : ℤ) : List ℤ :=
  ((collabSortedUsers log uid).drop 1).take 10

/-- Series.value_counts: distinct values in first-occurrence order paired
with their counts, then sort_values(ascending=False) on the counts. -/
def valueCountsDesc (xs : List ℤ) : List (ℤ × ℕ) :=
  pandasSortDescBy (fun p => p.2) ((firstDedup xs).map (fun k => (k, xs.count k)))

/-- The interaction rows of the neighbor users. -/
def neighborRows (log : List Interacao) (uid : ℤ) : List Interacao :=
  log.filter (fun r => decide (r.usuario_id ∈ collabNeighbors log uid))

/-- The listing ids recommended by the collaborative scorer: the index of
value_counts().head(n) over the neighbor rows. -/
def collabTopIds (log : List Interacao) (uid : ℤ) (n : ℤ) : List ℤ :=
  (takeInt n (valueCountsDesc ((neighborRows log uid).map (fun r => r.imovel_id)))).map
    (fun p => p.1)

/-- get_collaborative_recommendations: empty log or empty catalog returns
empty, a target absent from the pivot index returns empty, otherwise the
approved catalog filtered by membership of the id in the recommended ids
(which keeps catalog row order). -/
def collabRecs (log : List Interacao) (cat : List Imovel) (uid : ℤ) (n : ℤ) :
    List Imovel :=
  if log = [] ∨ cat = [] then []
  else if uid ∈ distinctSorted (log.map (fun r => r.usuario_id)) then
    cat.filter (fun l => decide (l.id ∈ collabTopIds log uid n))
  else []

/-- drop_duplicates(subset=[id], keep=first) with an explicit accumulator of
already seen ids. -/
def dedupByIdAux (seen : List ℤ) : List Imovel → List Imovel
  | [] => []
  | x :: xs =>
    if x.id ∈ seen then dedupByIdAux seen xs else x :: dedupByIdAux (x.id :: seen) xs

/-- drop_duplicates(subset=[id], keep=first). -/
def dedupById (l : List Imovel) : List Imovel := dedupByIdAux [] l

/-- get_hybrid_recommendations: both scorers run with the same n; if both
results are empty return empty, if exactly one is empty return the other
unchanged, otherwise concatenate content first, drop duplicate ids keeping
the first occurrence, and head(n). -/
def hybridRecs (sq : ℚ → ℚ) (pr : Option UserPrefs) (log : List Interacao)
    (cat : List Imovel) (uid : ℤ) (n : ℤ) : List Imovel :=
  if contentRecs sq pr cat n = [] ∧ collabRecs log cat uid n = [] then []
  else if contentRecs sq pr cat n = [] then collabRecs log cat uid n
  else if collabRecs log cat uid n = [] then contentRecs sq pr cat n
  else takeInt n (dedupById (contentRecs sq pr cat n ++ collabRecs log cat uid n))

/-- A square-root function valid on the argument 0 only. -/
def sqZero : ℚ → ℚ := fun _ => 0

/-- A square-root function valid on 0, 25 and 2500000000000000 (the squared
norm of the default preference vector 50000000). -/
def sqA : ℚ → ℚ :=
  fun q => if q = 25 then 5 else if q = 2500000000000000 then 50000000 else 0

/-- A square-root function valid on 0 and 1. -/
def sqW : ℚ → ℚ := fun q => if q = 1 then 1 else 0

/-- An approved listing with all numeric features 0. -/
def imA : Imovel :=
  { id := 1, tipo := "casa", provincia := "Luanda",
    preco := 0, quartos := some 0, banheiros := some 0, area := some 0 }

/-- A one-listing approved catalog. -/
def catA : List Imovel := [imA]

/-- The preference record the preferences form stores when the user picks
qualquer for both tipo and provincia: both keys present holding null. -/
def prefsNull : UserPrefs :=
  { tipo := some none, provincia := some none, preco_max := some 0, quartos_min := some 0 }

/-- Approved listing id 1, first catalog row. -/
def imB1 : Imovel :=
  { id := 1, tipo := "apartamento", provincia := "Benguela",
    preco := 0, quartos := some 0, banheiros := some 0, area := some 0 }

/-- Approved listing id 2, second catalog row. -/
def imB2 : Imovel :=
  { id := 2, tipo := "apartamento", provincia := "Benguela",
    preco := 0, quartos := some 0, banheiros := some 0, area := some 0 }

/-- A two-listing approved catalog in row order id 1, id 2. -/
def catB : List Imovel := [imB1, imB2]

/-- An interaction log: user 1 viewed listing 1 once; user 2 viewed listing
1 once and listing 2 three times. -/
def logB : List Interacao := [⟨1, 1⟩, ⟨2, 1⟩, ⟨2, 2⟩, ⟨2, 2⟩, ⟨2, 2⟩]

/-- An interaction log where users 1 and 2 have identical count rows. -/
def logC : List Interacao := [⟨1, 1⟩, ⟨2, 1⟩]

/-- An approved listing whose type is apartamento, not the default casa. -/
def imC : Imovel :=
  { id := 7, tipo := "apartamento", provincia := "Benguela",
    preco := 0, quartos := some 0, banheiros := some 0, area := some 0 }

/-- A one-listing catalog holding only an apartamento listing. -/
def catC : List Imovel := [imC]

/-- A preference record that exists but lacks the tipo and provincia keys
entirely (and states preco_max 3, quartos_min 4). -/
def prefsPartial : UserPrefs :=
  { tipo := none, provincia := none, preco_max := some 3, quartos_min := some 4 }

/-- Catalog row with feature values 0, 0, 5, 1. -/
def imW1 : Imovel :=
  { id := 10, tipo := "casa", provincia := "Luanda",
    preco := 0, quartos := some 0, banheiros := some 5, area := some 1 }

/-- Catalog row with feature values 2, 2, 5, 3: together with the previous
row every feature has variance 1 or 0, and banheiros is constant. -/
def imW2 : Imovel :=
  { id := 11, tipo := "casa", provincia := "Luanda",
    preco := 2, quartos := some 2, banheiros := some 5, area := some 3 }

/-- A two-listing catalog whose banheiros feature is constant. -/
def catW : List Imovel := [imW1, imW2]

/-- Approved listing id 1 matching the default preferences. -/
def imE1 : Imovel :=
  { id := 1, tipo := "casa", provincia := "Luanda",
    preco := 0, quartos := some 0, banheiros := some 0, area := some 0 }

/-- Approved listing id 2 matching the default preferences. -/
def imE2 : Imovel :=
  { id := 2, tipo := "casa", provincia := "Luanda",
    preco := 0, quartos := some 0, banheiros := some 0, area := some 0 }

/-- A catalog on which both scorers return non-empty results for user 1. -/
def catE : List Imovel := [imE1, imE2]

/-- A log in which user 1 has no interaction rows. -/
def logS : List Interacao := [⟨2, 1⟩]

theorem insAsc_perm {α κ : Type} [LinearOrder κ] (key : α → κ) (x : α) :
    ∀ l : List α, List.Perm (insAsc key x l) (x :: l)
  | [] => by simp [insAsc]
  | y :: ys => by
    by_cases h : key y < key x
    · simpa [insAsc, h] using ((insAsc_perm key x ys).cons y).trans (List.Perm.swap x y ys)
    · simp [insAsc, h]

theorem sortAscBy_perm {α κ : Type} [LinearOrder κ] (key : α → κ) :
    ∀ l : List α, List.Perm (sortAscBy key l) l
  | [] => by simp [sortAscBy]
  | x :: xs =>
    (insAsc_perm key x (sortAscBy key xs)).trans ((sortAscBy_perm key xs).cons x)

theorem insDesc_perm {α κ : Type} [LinearOrder κ] (key : α → κ) (x : α) :
    ∀ l : List α, List.Perm (insDesc key x l) (x :: l)
  | [] => by simp [insDesc]
  | y :: ys => by
    by_cases h : key x < key y
    · simpa [insDesc, h] using ((insDesc_perm key x ys).cons y).trans (List.Perm.swap x y ys)
    · simp [insDesc, h]

theorem sortDescBy_perm {α κ : Type} [LinearOrder κ] (key : α → κ) :
    ∀ l : List α, List.Perm (sortDescBy key l) l
  | [] => by simp [sortDescBy]
  | x :: xs =>
    (insDesc_perm key x (sortDescBy key xs)).trans ((sortDescBy_perm key xs).cons x)

theorem pandasSortDescBy_perm {α κ : Type} [LinearOrder κ] (key : α → κ) (l : List α) :
    List.Perm (pandasSortDescBy key l) l :=
  sortDescBy_perm key l

theorem mem_firstDedupAux (a : ℤ) : ∀ (seen l : List ℤ),
    a ∈ firstDedupAux seen l ↔ a ∈ l ∧ a ∉ seen
  | seen, [] => by simp [firstDedupAux]
  | seen, x :: xs => by
    by_cases h : x ∈ seen
    · rw [firstDedupAux, if_pos h, mem_firstDedupAux a seen xs]
      simp only [List.mem_cons]
      constructor
      · exact fun hp => ⟨Or.inr hp.1, hp.2⟩
      · rintro ⟨ha | ha, hs⟩
        · exact absurd h (ha ▸ hs)
        · exact ⟨ha, hs⟩
    · by_cases hax : a = x
      · subst hax
        rw [firstDedupAux, if_neg h]
        simp [h]
      · rw [firstDedupAux, if_neg h]
        simp only [List.mem_cons, mem_firstDedupAux a (x :: seen) xs, List.mem_cons]
        simp [hax]

theorem firstDedupAux_nodup : ∀ (seen l : List ℤ), (firstDedupAux seen l).Nodup
  | _, [] => by simp [firstDedupAux]
  | seen, x :: xs => by
    by_cases h : x ∈ seen
    · rw [firstDedupAux, if_pos h]
      exact firstDedupAux_nodup seen xs
    · rw [firstDedupAux, if_neg h]
      refine List.nodup_cons.2 ⟨?_, firstDedupAux_nodup (x :: seen) xs⟩
      intro hx
      exact ((mem_firstDedupAux x (x :: seen) xs).1 hx).2 (List.mem_cons_self x seen)

theorem distinctSorted_nodup (l : List ℤ) : (distinctSorted l).Nodup :=
  ((sortAscBy_perm (fun x => x) (firstDedup l)).symm).nodup (firstDedupAux_nodup [] l)

theorem mem_distinctSorted (a : ℤ) (l : List ℤ) : a ∈ distinctSorted l ↔ a ∈ l := by
  rw [distinctSorted, (sortAscBy_perm (fun x => x) (firstDedup l)).mem_iff,
    firstDedup, mem_firstDedupAux]
  simp

theorem dedupByIdAux_congr : ∀ (s₁ s₂ : List ℤ), (∀ a, a ∈ s₁ ↔ a ∈ s₂) →
    ∀ l : List Imovel, dedupByIdAux s₁ l = dedupByIdAux s₂ l
  | _, _, _, [] => rfl
  | s₁, s₂, h, x :: xs => by
    by_cases hx : x.id ∈ s₁
    · rw [dedupByIdAux, if_pos hx, dedupByIdAux, if_pos ((h x.id).1 hx),
        dedupByIdAux_congr s₁ s₂ h xs]
    · rw [dedupByIdAux, if_neg hx, dedupByIdAux, if_neg (fun hc => hx ((h x.id).2 hc)),
        dedupByIdAux_congr (x.id :: s₁) (x.id :: s₂) (fun a => by simp [h a]) xs]

theorem dedupByIdAux_eq_filter : ∀ (s : List ℤ) (l : List Imovel),
    (l.map Imovel.id).Nodup → dedupByIdAux s l = l.filter (fun x => decide (x.id ∉ s))
  | _, [], _ => rfl
  | s, x :: xs, h => by
    have hx : x.id ∉ xs.map Imovel.id := (List.nodup_cons.1 (by simpa using h)).1
    have hxs : (xs.map Imovel.id).Nodup := (List.nodup_cons.1 (by simpa using h)).2
    by_cases hs : x.id ∈ s
    · rw [dedupByIdAux, if_pos hs, List.filter_cons_of_neg (by simpa using hs),
        dedupByIdAux_eq_filter s xs hxs]
    · rw [dedupByIdAux, if_neg hs, List.filter_cons_of_pos (by simpa using hs),
        dedupByIdAux_eq_filter (x.id :: s) xs hxs]
      congr 1
      apply List.filter_congr
      intro y hy
      have hne : y.id ≠ x.id := fun he => hx (he ▸ List.mem_map_of_mem Imovel.id hy)
      simp [hne]

theorem dedupByIdAux_append : ∀ (seen : List ℤ) (c k : List Imovel),
    (c.map Imovel.id).Nodup → (∀ x ∈ c, x.id ∉ seen) →
    dedupByIdAux seen (c ++ k) = c ++ dedupByIdAux (c.map Imovel.id ++ seen) k
  | _, [], k, _, _ => by simp
  | seen, x :: xs, k, hnd, hdis => by
    have hx : x.id ∉ xs.map Imovel.id := (List.nodup_cons.1 (by simpa using hnd)).1
    have hxs : (xs.map Imovel.id).Nodup := (List.nodup_cons.1 (by simpa using hnd)).2
    have hxseen : x.id ∉ seen := hdis x (List.mem_cons_self x xs)
    rw [List.cons_append, dedupByIdAux, if_neg hxseen,
      dedupByIdAux_append (x.id :: seen) xs k hxs (fun y hy hc => by
        rcases List.mem_cons.1 hc with he | hs
        · exact hx (he ▸ List.mem_map_of_mem Imovel.id hy)
        · exact hdis y (List.mem_cons_of_mem x hy) hs)]
    rw [List.cons_append]
    congr 1
    congr 1
    apply dedupByIdAux_congr
    intro a
    simp only [List.map_cons, List.mem_cons, List.mem_append]
    tauto

theorem dedupById_append (c k : List Imovel) (hc : (c.map Imovel.id).Nodup)
    (hk : (k.map Imovel.id).Nodup) :
    dedupById (c ++ k) = c ++ k.filter (fun x => decide (x.id ∉ c.map Imovel.id)) := by
  rw [dedupById, dedupByIdAux_append [] c k hc (by simp),
    dedupByIdAux_congr (c.map Imovel.id ++ []) (c.map Imovel.id) (by simp) k,
    dedupByIdAux_eq_filter (c.map Imovel.id) k hk]

theorem subperm_map {α β : Type} (f : α → β) {l₁ l₂ : List α} (h : l₁ <+~ l₂) :
    l₁.map f <+~ l₂.map f := by
  obtain ⟨l, hp, hs⟩ := h
  exact ⟨l.map f, hp.map f, hs.map f⟩

theorem nodup_of_subperm {α : Type} {l₁ l₂ : List α} (h : l₁ <+~ l₂) (hn : l₂.Nodup) :
    l₁.Nodup := by
  obtain ⟨l, hp, hs⟩ := h
  exact hp.nodup (hs.nodup hn)

theorem map_pair_fst {α β : Type} (g : α → β) (l : List α) :
    (l.map (fun a => (a, g a))).map (fun x => x.1) = l := by
  induction l with
  | nil => rfl
  | cons a t ih => simp only [List.map_cons, ih]

theorem contentScoredRows_fst (sq : ℚ → ℚ) (pr : Option UserPrefs) (cat : List Imovel) :
    (contentScoredRows sq pr cat).map (fun x => x.1) = cat := by
  unfold contentScoredRows
  exact map_pair_fst _ cat

theorem tipoFilter_sublist (p : UserPrefs) (rows : List (Imovel × ℚ)) :
    tipoFilter p rows <+ rows := by
  unfold tipoFilter
  cases p.tipo with
  | none => exact List.Sublist.refl rows
  | some pv => exact List.filter_sublist rows

theorem provFilter_sublist (p : UserPrefs) (rows : List (Imovel × ℚ)) :
    provFilter p rows <+ rows := by
  unfold provFilter
  cases p.provincia with
  | none => exact List.Sublist.refl rows
  | some pv => exact List.filter_sublist rows

theorem applyFilters_sublist (p : UserPrefs) (rows : List (Imovel × ℚ)) :
    applyFilters p rows <+ rows :=
  (provFilter_sublist p (tipoFilter p rows)).trans (tipoFilter_sublist p rows)

theorem contentRecs_subperm (sq : ℚ → ℚ) (pr : Option UserPrefs) (cat : List Imovel)
    (n : ℤ) : contentRecs sq pr cat n <+~ cat := by
  unfold contentRecs
  split
  · exact (List.nil_sublist cat).subperm
  · unfold nlargestBySim
    split
    · exact (List.nil_sublist cat).subperm
    · have h1 : (sortDescBy (fun x => x.2)
          (applyFilters (resolvePrefs pr) (contentScoredRows sq pr cat))).take n.toNat
          <+~ applyFilters (resolvePrefs pr) (contentScoredRows sq pr cat) :=
        (List.take_sublist _ _).subperm.trans (sortDescBy_perm _ _).subperm
      have h2 := h1.trans (applyFilters_sublist (resolvePrefs pr)
        (contentScoredRows sq pr cat)).subperm
      have h3 := subperm_map (fun x : Imovel × ℚ => x.1) h2
      rwa [contentScoredRows_fst] at h3

theorem contentRecs_length_le (sq : ℚ → ℚ) (pr : Option UserPrefs) (cat : List Imovel)
    (n : ℤ) : (contentRecs sq pr cat n).length ≤ n.toNat := by
  unfold contentRecs nlargestBySim
  split
  · simp
  · split
    · simp
    · rw [List.length_map, List.length_take]
      exact min_le_left _ _

theorem contentRecs_ids_nodup (sq : ℚ → ℚ) (pr : Option UserPrefs) (cat : List Imovel)
    (n : ℤ) (h : (cat.map Imovel.id).Nodup) :
    ((contentRecs sq pr cat n).map Imovel.id).Nodup :=
  nodup_of_subperm (subperm_map Imovel.id (contentRecs_subperm sq pr cat n)) h

theorem collabRecs_sublist (log : List Interacao) (cat : List Imovel) (uid : ℤ) (n : ℤ) :
    collabRecs log cat uid n <+ cat := by
  unfold collabRecs
  split
  · exact List.nil_sublist cat
  · split
    · exact List.filter_sublist cat
    · exact List.nil_sublist cat

theorem collabRecs_ids_nodup (log : List Interacao) (cat : List Imovel) (uid : ℤ) (n : ℤ)
    (h : (cat.map Imovel.id).Nodup) : ((collabRecs log cat uid n).map Imovel.id).Nodup :=
  ((collabRecs_sublist log cat uid n).map Imovel.id).nodup h

theorem collabTopIds_length_le (log : List Interacao) (uid : ℤ) (n : ℤ) (hn : 0 ≤ n) :
    (collabTopIds log uid n).length ≤ n.toNat := by
  unfold collabTopIds takeInt
  rw [if_pos hn, List.length_map, List.length_take]
  exact min_le_left _ _

theorem collabRecs_mem_topIds (log : List Interacao) (cat : List Imovel) (uid : ℤ)
    (n : ℤ) (l : Imovel) (hl : l ∈ collabRecs log cat uid n) :
    l.id ∈ collabTopIds log uid n := by
  unfold collabRecs at hl
  split at hl
  · simp at hl
  · split at hl
    · exact of_decide_eq_true (List.mem_filter.1 hl).2
    · simp at hl

theorem collabRecs_length_le (log : List Interacao) (cat : List Imovel) (uid : ℤ) (n : ℤ)
    (hn : 0 ≤ n) (hcat : (cat.map Imovel.id).Nodup) :
    (collabRecs log cat uid n).length ≤ n.toNat := by
  have hsub : (collabRecs log cat uid n).map Imovel.id ⊆ collabTopIds log uid n := by
    intro a ha
    obtain ⟨x, hx, rfl⟩ := List.mem_map.1 ha
    exact collabRecs_mem_topIds log cat uid n x hx
  have hnd := collabRecs_ids_nodup log cat uid n hcat
  have hle := (List.subperm_of_subset hnd hsub).length_le
  rw [List.length_map] at hle
  exact hle.trans (collabTopIds_length_le log uid n hn)

theorem takeInt_of_le {α : Type} (n : ℤ) (l : List α) (hn : 0 ≤ n)
    (h : l.length ≤ n.toNat) : takeInt n l = l := by
  unfold takeInt
  rw [if_pos hn]
  exact List.take_of_length_le h

theorem sum_eq_zero_of_nonneg (l : List ℚ) (h0 : ∀ x ∈ l, 0 ≤ x) (h : l.sum = 0) :
    ∀ x ∈ l, x = 0 := by
  induction l with
  | nil => simp
  | cons a t ih =>
    have ha : 0 ≤ a := h0 a (List.mem_cons_self a t)
    have ht : 0 ≤ t.sum := List.sum_nonneg (fun x hx => h0 x (List.mem_cons_of_mem a hx))
    have hsum : a + t.sum = 0 := by simpa using h
    have ha0 : a = 0 := le_antisymm (by linarith) ha
    have ht0 : t.sum = 0 := by linarith
    intro x hx
    rcases List.mem_cons.1 hx with rfl | hx
    · exact ha0
    · exact ih (fun y hy => h0 y (List.mem_cons_of_mem a hy)) ht0 x hx

theorem takeInt_sublist {α : Type} (n : ℤ) (l : List α) : takeInt n l <+ l := by
  unfold takeInt
  split
  · exact List.take_sublist _ _
  · exact List.take_sublist _ _

/-- C6: for every approved catalog in which one of the features preco,
quartos, banheiros, area has zero variance, the normalizer assigns that
feature the standardized value exactly 0 in every listing row: the zero
scale is replaced by 1 (scaleOf), so no division by zero occurs and the
transform is a total function, raising nothing. -/
theorem c6_zero_variance_feature (sq : ℚ → ℚ) (cat : List Imovel) (j : Fin 4)
    (h : fitVar cat j = 0) : ∀ l ∈ cat, transform sq cat (featOf l) j = 0 := by
  intro l hl
  have hpos : 0 < cat.length := List.length_pos.2 (List.ne_nil_of_mem hl)
  have hlen : (cat.length : ℚ) ≠ 0 := Nat.cast_ne_zero.2 hpos.ne'
  have hsum : (cat.map
      (fun m => (featOf m j - fitMean cat j) * (featOf m j - fitMean cat j))).sum = 0 := by
    unfold fitVar at h
    rcases div_eq_zero_iff.1 h with h1 | h2
    · exact h1
    · exact absurd h2 hlen
  have hall := sum_eq_zero_of_nonneg _ (fun x hx => by
    obtain ⟨y, hy, rfl⟩ := List.mem_map.1 hx
    exact mul_self_nonneg _) hsum
  have hterm : (featOf l j - fitMean cat j) * (featOf l j - fitMean cat j) = 0 :=
    hall _ (List.mem_map_of_mem _ hl)
  have hfm : featOf l j - fitMean cat j = 0 := mul_self_eq_zero.1 hterm
  unfold transform
  rw [hfm, zero_div]

unseal Rat.mul Rat.inv Rat.add Rat.sub in
theorem c6_zero_variance_feature_witness :
    fitVar catW 2 = 0 ∧ transform sqW catW (featOf imW1) 2 = 0 ∧
      transform sqW catW (featOf imW2) 2 = 0 :=
  ⟨by decide, c6_zero_variance_feature sqW catW 2 (by decide) imW1 (by decide),
    c6_zero_variance_feature sqW catW 2 (by decide) imW2 (by decide)⟩

/-- C7: the raw preference vector has its price slot equal to the stated
preco_max (0 when the key is absent), its bedroom slot equal to quartos_min
(0 when absent), and its banheiros and area slots always 0; the standardized
user vector is this raw vector pushed through the transform whose mean and
scale were fitted on the approved catalog: multiplying each coordinate back
by the catalog scale and adding the catalog mean recovers the raw vector,
so the single vector is transformed with the catalog statistics and never
re-fitted on itself (a re-fit on the single vector would send it to zero). -/
theorem c7_preference_vector (sq : ℚ → ℚ) (pr : Option UserPrefs) (cat : List Imovel)
    (hsq : sqrtSpec sq (List.ofFn (fun j : Fin 4 => fitVar cat j))) :
    rawUserVec (resolvePrefs pr) 0 = (resolvePrefs pr).preco_max.getD 0 ∧
    rawUserVec (resolvePrefs pr) 1 = (resolvePrefs pr).quartos_min.getD 0 ∧
    rawUserVec (resolvePrefs pr) 2 = 0 ∧
    rawUserVec (resolvePrefs pr) 3 = 0 ∧
    ∀ j : Fin 4, contentUserVec sq pr cat j * scaleOf sq cat j + fitMean cat j =
      rawUserVec (resolvePrefs pr) j := by
  refine ⟨rfl, rfl, rfl, rfl, ?_⟩
  intro j
  have hscale : scaleOf sq cat j ≠ 0 := by
    unfold scaleOf
    split
    · exact one_ne_zero
    · rename_i hv
      intro h0
      have hmem : fitVar cat j ∈ List.ofFn (fun j : Fin 4 => fitVar cat j) :=
        (List.mem_ofFn _ _).2 ⟨j, rfl⟩
      have hmul := (hsq _ hmem).2
      rw [h0, mul_zero] at hmul
      exact hv hmul.symm
  unfold contentUserVec transform
  rw [div_mul_cancel₀ _ hscale, sub_add_cancel]

unseal Rat.mul Rat.inv Rat.add Rat.sub in
theorem c7_preference_vector_witness :
    sqrtSpec sqW (List.ofFn (fun j : Fin 4 => fitVar catW j)) ∧
    (rawUserVec (resolvePrefs (some prefsPartial)) 0 =
        (resolvePrefs (some prefsPartial)).preco_max.getD 0 ∧
      rawUserVec (resolvePrefs (some prefsPartial)) 1 =
        (resolvePrefs (some prefsPartial)).quartos_min.getD 0 ∧
      rawUserVec (resolvePrefs (some prefsPartial)) 2 = 0 ∧
      rawUserVec (resolvePrefs (some prefsPartial)) 3 = 0 ∧
      ∀ j : Fin 4, contentUserVec sqW (some prefsPartial) catW j * scaleOf sqW catW j +
        fitMean catW j = rawUserVec (resolvePrefs (some prefsPartial)) j) :=
  ⟨by decide, c7_preference_vector sqW (some prefsPartial) catW (by decide)⟩

unseal Rat.mul Rat.inv Rat.add Rat.sub in
/-- C1: evaluation of the content scorer at the failing input.  With the
stored preferences the preferences form writes when the user selects
qualquer (any) for tipo and provincia - both keys present holding null -
the hard filter compares the tipo column against null, which matches no
listing, so the entire catalog is dropped and the result is empty even
though the catalog is non-empty: the claim (a null preferred type or
province drops nothing) is violated by the code at this input. -/
theorem c1_null_pref_drops_everything :
    sqrtSpec sqZero (contentSqrtArgs sqZero (some prefsNull) catA) ∧
    prefsNull.tipo = some none ∧ prefsNull.provincia = some none ∧
    catA ≠ [] ∧ imA.tipo = "casa" ∧ imA.provincia = "Luanda" ∧
    contentRecs sqZero (some prefsNull) catA 10 = [] := by decide

unseal Rat.mul Rat.inv Rat.add Rat.sub in
/-- C8 counterexample: a stored record that exists but lacks the tipo and
provincia keys does not behave as if those fields held their defaults.
With the partial record the apartamento listing is returned (no type filter
at all), while with an absent record the defaults (tipo casa) drop it:
per-field default substitution does not happen. -/
theorem c8_partial_record_not_defaulted :
    sqrtSpec sqA (contentSqrtArgs sqA (some prefsPartial) catC) ∧
    sqrtSpec sqA (contentSqrtArgs sqA none catC) ∧
    prefsPartial.tipo = none ∧ prefsPartial.provincia = none ∧
    imC.tipo ≠ "casa" ∧
    contentRecs sqA (some prefsPartial) catC 10 = [imC] ∧
    contentRecs sqA none catC 10 = [] := by decide

/-- C8 as amended: the defaults are substituted wholesale, only when the
stored record is absent or empty (the scorer then behaves exactly as if the
full default record were stored); a record that exists but lacks the tipo
and provincia keys gets no filter on those attributes at all, rather than
a filter on the default values. -/
theorem c8_wholesale_defaults (sq : ℚ → ℚ) (cat : List Imovel) (n : ℤ)
    (p : UserPrefs) (rows : List (Imovel × ℚ))
    (h1 : p.tipo = none) (h2 : p.provincia = none) :
    contentRecs sq none cat n = contentRecs sq (some defaultPrefs) cat n ∧
    applyFilters p rows = rows := by
  constructor
  · rfl
  · unfold applyFilters tipoFilter provFilter
    rw [h1, h2]

unseal Rat.mul Rat.inv Rat.add Rat.sub in
theorem c8_wholesale_defaults_witness :
    contentRecs sqA none catC 5 = contentRecs sqA (some defaultPrefs) catC 5 ∧
    applyFilters prefsPartial [(imC, 0)] = [(imC, 0)] :=
  c8_wholesale_defaults sqA catC 5 prefsPartial [(imC, 0)] (by decide) (by decide)

unseal Rat.mul Rat.inv Rat.add Rat.sub in
/-- C10: the scorers do not exclude listings the target user has already
interacted with.  User 1 has an interaction row for listing 1, yet listing
1 is still a member of the collaborative result for user 1 and of the
hybrid result built on the same snapshot. -/
theorem c10_already_viewed_can_reappear :
    (⟨1, 1⟩ : Interacao) ∈ logB ∧ imB1.id = 1 ∧
    imB1 ∈ collabRecs logB catB 1 10 ∧
    sqrtSpec sqA (contentSqrtArgs sqA none catB) ∧
    imB1 ∈ hybridRecs sqA none logB catB 1 10 := by decide

unseal Rat.mul Rat.inv Rat.add Rat.sub in
/-- C9 counterexample: with n = -1 no validation error is raised; the
hybrid pipeline happily returns a non-empty result.  The content scorer
returns empty (nlargest with non-positive n), the collaborative value
counts are cut with head(-1), which drops only the least frequent id, and
the hybrid branch returns the collaborative result unchanged. -/
theorem c9_negative_n_returns_result :
    sqrtSpec sqA (contentSqrtArgs sqA none catB) ∧
    hybridRecs sqA none logB catB 1 (-1) = [imB2] := by decide

/-- C9 as amended: for every negative n the recommenders raise no
validation error; the content scorer returns the empty set and the hybrid
result equals the collaborative result (which, through the pandas head
semantics for negative counts, keeps all but the last -n value-count rows
and can be non-empty). -/
theorem c9_negative_n_no_error (sq : ℚ → ℚ) (pr : Option UserPrefs)
    (log : List Interacao) (cat : List Imovel) (uid : ℤ) (n : ℤ) (hn : n < 0) :
    contentRecs sq pr cat n = [] ∧
    hybridRecs sq pr log cat uid n = collabRecs log cat uid n := by
  have hc : contentRecs sq pr cat n = [] := by
    unfold contentRecs nlargestBySim
    split
    · rfl
    · rw [if_pos (le_of_lt hn)]
  refine ⟨hc, ?_⟩
  unfold hybridRecs
  rw [hc]
  by_cases hk : collabRecs log cat uid n = []
  · rw [if_pos ⟨rfl, hk⟩, hk]
  · rw [if_neg (fun hb => hk hb.2), if_pos rfl]

unseal Rat.mul Rat.inv Rat.add Rat.sub in
theorem c9_negative_n_no_error_witness :
    contentRecs sqA none catB (-1) = [] ∧
    hybridRecs sqA none logB catB 1 (-1) = collabRecs logB catB 1 (-1) :=
  c9_negative_n_no_error sqA none logB catB 1 (-1) (by decide)

/-- C5: a user with zero rows in the interaction log is not a row of the
pivot matrix, so the collaborative scorer returns the empty result (no
fallback, no cold-start heuristic, no exception: the function is total),
and the hybrid result for that user equals the content-based result,
whether or not the latter is empty. -/
theorem c5_cold_start (sq : ℚ → ℚ) (pr : Option UserPrefs) (log : List Interacao)
    (cat : List Imovel) (uid : ℤ) (n : ℤ) (h : ∀ r ∈ log, r.usuario_id ≠ uid) :
    collabRecs log cat uid n = [] ∧
    hybridRecs sq pr log cat uid n = contentRecs sq pr cat n := by
  have hk : collabRecs log cat uid n = [] := by
    unfold collabRecs
    split
    · rfl
    · split
      · rename_i hmem
        exfalso
        obtain ⟨r, hr, hre⟩ := List.mem_map.1 ((mem_distinctSorted uid _).1 hmem)
        exact h r hr hre
      · rfl
  refine ⟨hk, ?_⟩
  unfold hybridRecs
  rw [hk]
  by_cases hc : contentRecs sq pr cat n = []
  · rw [if_pos ⟨hc, rfl⟩, hc]
  · rw [if_neg (fun hb => hc hb.1), if_neg hc, if_pos rfl]

unseal Rat.mul Rat.inv Rat.add Rat.sub in
theorem c5_cold_start_witness :
    collabRecs logS catB 1 10 = [] ∧
    hybridRecs sqA none logS catB 1 10 = contentRecs sqA none catB 10 :=
  c5_cold_start sqA none logS catB 1 10 (by decide)

unseal Rat.mul Rat.inv Rat.add Rat.sub in
/-- C2 counterexample: the collaborative output is not ordered by
descending frequency.  Among the neighbor rows listing 2 occurs three
times and listing 1 once, so the claimed order is listing 2 before
listing 1; the code instead returns the listings in catalog row order,
listing 1 (id 1) first. -/
theorem c2_not_frequency_ordered :
    ((neighborRows logB 1).map (fun r => r.imovel_id)).count 2 = 3 ∧
    ((neighborRows logB 1).map (fun r => r.imovel_id)).count 1 = 1 ∧
    collabTopIds logB 1 10 = [2, 1] ∧
    imB1.id = 1 ∧ imB2.id = 2 ∧
    collabRecs logB catB 1 10 = [imB1, imB2] ∧
    collabRecs logB catB 1 10 ≠ [imB2, imB1] := by decide

/-- C2 as amended: for a non-empty log, a non-empty approved catalog and a
target present in the pivot index, the collaborative scorer returns exactly
the approved-catalog listings whose id is among the top-n ids of
value_counts over the neighbor rows (counts descending; the frequency
ranking determines membership only), in catalog row order - a sublist of
the catalog - with ids of dropped (no longer approved) listings silently
ignored. -/
theorem c2_collab_catalog_order (log : List Interacao) (cat : List Imovel)
    (uid : ℤ) (n : ℤ) (h1 : log ≠ []) (h2 : cat ≠ [])
    (h3 : uid ∈ distinctSorted (log.map (fun r => r.usuario_id))) :
    collabRecs log cat uid n =
      cat.filter (fun l => decide (l.id ∈ collabTopIds log uid n)) ∧
    collabRecs log cat uid n <+ cat := by
  refine ⟨?_, collabRecs_sublist log cat uid n⟩
  unfold collabRecs
  rw [if_neg (by simp [h1, h2]), if_pos h3]

unseal Rat.mul Rat.inv Rat.add Rat.sub in
theorem c2_collab_catalog_order_witness :
    (collabRecs logB catB 1 10 =
      catB.filter (fun l => decide (l.id ∈ collabTopIds logB 1 10)) ∧
    collabRecs logB catB 1 10 <+ catB) :=
  c2_collab_catalog_order logB catB 1 10 (by decide) (by decide) (by decide)

unseal Rat.mul Rat.inv Rat.add Rat.sub in
/-- C3 counterexample: the neighbor slice can contain the target user
itself.  Users 1 and 2 have identical count rows, so both tie at cosine
similarity 1 with target user 2; the stable descending sort keeps the
pivot-index order [1, 2], the slice [1:11] drops user 1 instead of the
target, and the neighbor set computed for user 2 is exactly the singleton
containing user 2 itself. -/
theorem c3_target_among_neighbors :
    distinctSorted (logC.map (fun r => r.usuario_id)) = [1, 2] ∧
    simSq logC 2 1 = 1 ∧ simSq logC 2 2 = 1 ∧
    collabNeighbors logC 2 = [2] := by decide

/-- C3 as amended: the neighbor set consists of at most 10 users, taken as
positions 1 through 10 of the similarity column sorted descending with
ties kept in pivot-index order (user id ascending); it is the first entry
of that ordering that is dropped, not the target as such, so the target is
excluded whenever it occupies the first position - in particular whenever
it is the unique maximizer or ties only with larger user ids - but a user
with an identical interaction pattern and a smaller user id is sorted
ahead of the target, which is then dropped in its place while the target
itself remains among the neighbors. -/
theorem c3_neighbor_selection (log : List Interacao) (uid : ℤ)
    (h : (collabSortedUsers log uid).head? = some uid) :
    (collabNeighbors log uid).length ≤ 10 ∧ uid ∉ collabNeighbors log uid := by
  constructor
  · unfold collabNeighbors
    exact List.length_take_le _ _
  · have hnd : (collabSortedUsers log uid).Nodup :=
      (pandasSortDescBy_perm _ _).symm.nodup (distinctSorted_nodup _)
    obtain ⟨t, ht⟩ : ∃ t, collabSortedUsers log uid = uid :: t := by
      cases hcs : collabSortedUsers log uid with
      | nil => rw [hcs] at h; simp at h
      | cons a t =>
        rw [hcs] at h
        simp only [List.head?_cons, Option.some_inj] at h
        exact ⟨t, by rw [h]⟩
    intro hmem
    unfold collabNeighbors at hmem
    rw [ht] at hmem hnd
    simp only [List.drop_succ_cons, List.drop_zero] at hmem
    exact (List.nodup_cons.1 hnd).1 (List.take_subset _ _ hmem)

unseal Rat.mul Rat.inv Rat.add Rat.sub in
theorem c3_neighbor_selection_witness :
    (collabNeighbors logB 1).length ≤ 10 ∧ 1 ∉ collabNeighbors logB 1 :=
  c3_neighbor_selection logB 1 (by decide)

/-- C4: the hybrid blender, with both scorers run on the same snapshot and
the same n (n nonnegative, catalog ids unique): if both inputs are empty
the result is empty; if exactly one is empty the other is returned, which
equals its truncation to n because each scorer yields at most n listings;
otherwise the result is the content listings in their order followed by
the collaborative listings whose id has not already appeared (first
occurrence wins, so content entries take priority), truncated to n, with
no re-ranking by any combined score; the output ids are pairwise distinct,
so a listing present in both inputs appears exactly once, at the position
given by the content ranking. -/
theorem c4_hybrid_blend (sq : ℚ → ℚ) (pr : Option UserPrefs) (log : List Interacao)
    (cat : List Imovel) (uid : ℤ) (n : ℤ) (hn : 0 ≤ n)
    (hids : (cat.map Imovel.id).Nodup) :
    (contentRecs sq pr cat n = [] → collabRecs log cat uid n = [] →
      hybridRecs sq pr log cat uid n = []) ∧
    (contentRecs sq pr cat n = [] →
      hybridRecs sq pr log cat uid n = takeInt n (collabRecs log cat uid n)) ∧
    (collabRecs log cat uid n = [] →
      hybridRecs sq pr log cat uid n = takeInt n (contentRecs sq pr cat n)) ∧
    (contentRecs sq pr cat n ≠ [] → collabRecs log cat uid n ≠ [] →
      hybridRecs sq pr log cat uid n =
        takeInt n (contentRecs sq pr cat n ++
          (collabRecs log cat uid n).filter
            (fun x => decide (x.id ∉ (contentRecs sq pr cat n).map Imovel.id)))) ∧
    ((hybridRecs sq pr log cat uid n).map Imovel.id).Nodup := by
  have hclen := contentRecs_length_le sq pr cat n
  have hklen := collabRecs_length_le log cat uid n hn hids
  have hcnd := contentRecs_ids_nodup sq pr cat n hids
  have hknd := collabRecs_ids_nodup log cat uid n hids
  have e1 : contentRecs sq pr cat n = [] → collabRecs log cat uid n = [] →
      hybridRecs sq pr log cat uid n = [] := by
    intro h1 h2
    unfold hybridRecs
    rw [if_pos ⟨h1, h2⟩]
  have e2 : contentRecs sq pr cat n = [] →
      hybridRecs sq pr log cat uid n = takeInt n (collabRecs log cat uid n) := by
    intro h1
    by_cases h2 : collabRecs log cat uid n = []
    · rw [e1 h1 h2, h2]
      simp [takeInt]
    · unfold hybridRecs
      rw [if_neg (fun hb => h2 hb.2), if_pos h1, takeInt_of_le n _ hn hklen]
  have e3 : collabRecs log cat uid n = [] →
      hybridRecs sq pr log cat uid n = takeInt n (contentRecs sq pr cat n) := by
    intro h2
    by_cases h1 : contentRecs sq pr cat n = []
    · rw [e1 h1 h2, h1]
      simp [takeInt]
    · unfold hybridRecs
      rw [if_neg (fun hb => h1 hb.1), if_neg h1, if_pos h2, takeInt_of_le n _ hn hclen]
  have e4 : contentRecs sq pr cat n ≠ [] → collabRecs log cat uid n ≠ [] →
      hybridRecs sq pr log cat uid n = takeInt n (contentRecs sq pr cat n ++
        (collabRecs log cat uid n).filter
          (fun x => decide (x.id ∉ (contentRecs sq pr cat n).map Imovel.id))) := by
    intro h1 h2
    unfold hybridRecs
    rw [if_neg (fun hb => h1 hb.1), if_neg h1, if_neg h2, dedupById_append _ _ hcnd hknd]
  refine ⟨e1, e2, e3, e4, ?_⟩
  by_cases h1 : contentRecs sq pr cat n = []
  · rw [e2 h1]
    exact ((takeInt_sublist n _).map Imovel.id).nodup hknd
  · by_cases h2 : collabRecs log cat uid n = []
    · rw [e3 h2]
      exact ((takeInt_sublist n _).map Imovel.id).nodup hcnd
    · rw [e4 h1 h2]
      have hnd2 : ((contentRecs sq pr cat n ++
          (collabRecs log cat uid n).filter
            (fun x => decide (x.id ∉ (contentRecs sq pr cat n).map Imovel.id))).map
              Imovel.id).Nodup := by
        rw [List.map_append]
        refine List.Nodup.append hcnd
          (((List.filter_sublist _).map Imovel.id).nodup hknd) ?_
        intro a ha hb
        obtain ⟨x, hx, rfl⟩ := List.mem_map.1 hb
        exact (of_decide_eq_true (List.mem_filter.1 hx).2) ha
      exact ((takeInt_sublist n _).map Imovel.id).nodup hnd2

unseal Rat.mul Rat.inv Rat.add Rat.sub in
theorem c4_hybrid_blend_witness :
    (contentRecs sqA none catE 10 = [] → collabRecs logB catE 1 10 = [] →
      hybridRecs sqA none logB catE 1 10 = []) ∧
    (contentRecs sqA none catE 10 = [] →
      hybridRecs sqA none logB catE 1 10 = takeInt 10 (collabRecs logB catE 1 10)) ∧
    (collabRecs logB catE 1 10 = [] →
      hybridRecs sqA none logB catE 1 10 = takeInt 10 (contentRecs sqA none catE 10)) ∧
    (contentRecs sqA none catE 10 ≠ [] → collabRecs logB catE 1 10 ≠ [] →
      hybridRecs sqA none logB catE 1 10 =
        takeInt 10 (contentRecs sqA none catE 10 ++
          (collabRecs logB catE 1 10).filter
            (fun x => decide (x.id ∉ (contentRecs sqA none catE 10).map Imovel.id)))) ∧
    ((hybridRecs sqA none logB catE 1 10).map Imovel.id).Nodup :=
  c4_hybrid_blend sqA none logB catE 1 10 (by decide) (by decide)
